import Mathlib

/-!
Shallow embedding of the `solar-energy-prediction` data-collection core
(`src/collect_data/`): the time utilities (`timeutils.py`), the RTE
generation collector (`RTECollector.py`) and the weather collector
(`WeatherCollector.py`).  Datetimes are modelled as Unix seconds (`Int`),
timedeltas as seconds (`Int`).  Fallible code is modelled with
`Option`/`Except`; the while-loops of the date slicers are modelled both as
well-founded recursions (total under the hypothesis that makes the loop
terminate) and as fuel-indexed loops (to reason about non-termination).
-/

namespace SolarEnergy

namespace Timeutils

/-- Model of a parsed ISO-8601 datetime, the result of Python's
`datetime.fromisoformat`: wall-clock fields plus the UTC offset carried by
the string, `none` when the string is naive (no offset).  Microseconds are
omitted (all repository inputs are whole seconds). -/
structure IsoDateTime where
  year : Int
  month : Int
  day : Int
  hour : Int
  minute : Int
  second : Int
  utcOffsetMinutes : Option Int
deriving Repr, DecidableEq

/-- Days since the Unix epoch of a proleptic-Gregorian civil date
(standard days-from-civil algorithm, floor division), modelling Python
`datetime.date.toordinal` arithmetic. -/
def daysFromCivil (y m d : Int) : Int :=
  let y2 := if m ≤ 2 then y - 1 else y
  let era := Int.fdiv y2 400
  let yoe := y2 - era * 400
  let mp := if 2 < m then m - 3 else m + 9
  let doy := Int.fdiv (153 * mp + 2) 5 + d - 1
  let doe := yoe * 365 + Int.fdiv yoe 4 - Int.fdiv yoe 100 + doy
  era * 146097 + doe - 719468

/-- Day of week with Sunday = 0 for a days-since-epoch count
(1970-01-01 was a Thursday). -/
def dayOfWeekSunday0 (days : Int) : Int :=
  Int.emod (days + 4) 7

/-- Day of month of the last Sunday of a month with 31 days (March and
October, the EU DST transition months). -/
def lastSundayDay (y m : Int) : Int :=
  31 - dayOfWeekSunday0 (daysFromCivil y m 31)

/-- Seconds since epoch of the wall-clock fields read as if they were UTC
(no timezone applied). -/
def epochOfWallclock (dt : IsoDateTime) : Int :=
  86400 * daysFromCivil dt.year dt.month dt.day
    + 3600 * dt.hour + 60 * dt.minute + dt.second

/-- Whether Europe/Paris daylight-saving time is in effect for a naive
wall-clock instant, per the EU rule in force since 1996 (the era of all
repository data): DST from 03:00 local on the last Sunday of March up to,
but excluding, 03:00 local on the last Sunday of October, matching
`zoneinfo.ZoneInfo` semantics with `fold = 0`. -/
def parisDst (dt : IsoDateTime) : Bool :=
  let t := epochOfWallclock dt
  let marT := 86400 * daysFromCivil dt.year 3 (lastSundayDay dt.year 3) + 3 * 3600
  let octT := 86400 * daysFromCivil dt.year 10 (lastSundayDay dt.year 10) + 3 * 3600
  decide (marT ≤ t ∧ t < octT)

/-- UTC offset, in seconds, of Europe/Paris at a naive wall-clock instant:
CEST (+2h) during DST, CET (+1h) otherwise. -/
def parisOffsetSeconds (dt : IsoDateTime) : Int :=
  if parisDst dt then 7200 else 3600

/-- Embedding of `timeutils.date_to_int`: the code runs
`datetime.fromisoformat(date).replace(tzinfo=ZoneInfo('Europe/Paris'))`
and returns `int(dt.timestamp())`.  `replace` keeps the wall-clock fields
and throws away any UTC offset parsed from the string, so the result is
the epoch of the wall-clock fields interpreted as Europe/Paris local
time; the parsed offset `utcOffsetMinutes` is not consulted. -/
def date_to_int (dt : IsoDateTime) : Int :=
  epochOfWallclock dt - parisOffsetSeconds dt

/-- The instant an ISO-8601 string with an explicit offset denotes:
wall-clock epoch minus the offset.  A naive string is read as if the
offset were zero. -/
def instantOf (dt : IsoDateTime) : Int :=
  epochOfWallclock dt - 60 * dt.utcOffsetMinutes.getD 0

end Timeutils

/-- Lookup in an insertion-ordered association list, modelling Python
`dict` key lookup. -/
def dictLookup {α : Type} : List (String × α) → String → Option α
  | [], _ => none
  | kv :: rest, k => if kv.1 = k then some kv.2 else dictLookup rest k

/-- Key assignment in an insertion-ordered association list, modelling
Python `d[k] = v`: an existing key keeps its position, a new key is
appended at the end. -/
def dictInsert {α : Type} : List (String × α) → String → α → List (String × α)
  | [], k, v => [(k, v)]
  | kv :: rest, k, v => if kv.1 = k then (k, v) :: rest else kv :: dictInsert rest k v

/-- Model of the pieces of the filesystem the writers touch: whether the
configured save directory exists, and the CSV files in it, keyed by file
name and carrying their header row (the list of column labels). -/
structure FileSystem where
  dirExists : Bool
  files : List (String × List String)
deriving Repr, DecidableEq

/-- Header row produced by pandas `DataFrame.to_csv` for a frame with the
given column labels: when `index` is true (the pandas default) the row
index is written as an extra leading column with an empty label. -/
def csvHeader (columns : List String) (index : Bool) : List String :=
  (if index then [""] else []) ++ columns

/-- One CSV write as both collectors perform it: create the save
directory when absent (`os.makedirs`), then write the file, replacing any
existing file of the same name (`DataFrame.to_csv` truncates). -/
def writeCsv (fs : FileSystem) (name : String) (header : List String) : FileSystem :=
  ⟨true, dictInsert fs.files name header⟩

namespace RTECollector

/-- Embedding of the loop body of `RTECollector.slice_dates`:
`while current_date <= end_date: append (current, current + delta);
current += delta`.  The loop terminates exactly when `delta` is positive,
so the hypothesis `0 < delta` is carried as an argument. -/
def slice_datesAux (end_date delta : Int) (hd : 0 < delta) (current : Int) :
    List (Int × Int) :=
  if current ≤ end_date then
    (current, current + delta) :: slice_datesAux end_date delta hd (current + delta)
  else []
termination_by (end_date + delta - current).toNat
decreasing_by
  simp_wf
  omega

/-- Embedding of `RTECollector.slice_dates(start_date, end_date, delta)`. -/
def slice_dates (start_date end_date : Int) (delta : Int) (hd : 0 < delta) :
    List (Int × Int) :=
  slice_datesAux end_date delta hd start_date

/-- Fuel-indexed version of the `slice_dates` while-loop: `none` means the
loop has not finished within the given number of iterations. -/
def slice_datesFuel (end_date delta : Int) : Nat → Int → Option (List (Int × Int))
  | 0, current => if current ≤ end_date then none else some []
  | n + 1, current =>
    if current ≤ end_date then
      (slice_datesFuel end_date delta n (current + delta)).map
        (fun rest => (current, current + delta) :: rest)
    else some []

/-- One per-production-type entry of the parsed series: the parallel
arrays stored under the dict keys `'start'`, `'end'` and `'values'` by
`RTECollector.parse_result`.  The source key `'end'` is a Lean keyword,
so the field is called `end_`. -/
structure SeriesEntry where
  start : List Int
  end_ : List Int
  values : List Int
deriving Repr, DecidableEq

/-- The per-slice parse output and the merge accumulator of
`RTECollector.save_data`: a Python dict from production type to a
`SeriesEntry`. -/
abbrev SeriesData := List (String × SeriesEntry)

/-- The empty entry `{'start': [], 'end': [], 'values': []}`. -/
def emptyEntry : SeriesEntry :=
  ⟨[], [], []⟩

/-- Field-wise concatenation of two entries, the effect of
`for k in values.keys(): data[pt][k] += values[k]` on an entry holding
all three keys. -/
def appendEntry (a b : SeriesEntry) : SeriesEntry :=
  ⟨a.start ++ b.start, a.end_ ++ b.end_, a.values ++ b.values⟩

/-- One pass of the merge loop in `RTECollector.save_data`: fold one
slice's parse output into the accumulator; a production type missing from
the accumulator is first bound to the empty entry, then the slice's
arrays are concatenated onto the accumulator's. -/
def mergeInto (data part : SeriesData) : SeriesData :=
  part.foldl
    (fun acc kv =>
      dictInsert acc kv.1 (appendEntry ((dictLookup acc kv.1).getD emptyEntry) kv.2))
    data

/-- The whole merge of `RTECollector.save_data`: `data = parts[0]`, then
each later part is folded in; an empty parts list raises `IndexError`
(modelled as `none`).  `save_data` always has at least one part because
`slice_dates` returns at least one slice when `start ≤ end`. -/
def mergeParts : List SeriesData → Option SeriesData
  | [] => none
  | p :: ps => some (ps.foldl mergeInto p)

/-- Specification-side description of what the merge computes at one key:
the field-wise concatenation, in slice order, of every slice's entry at
that key, an absent key contributing the empty entry. -/
def concatEntries (ps : List SeriesData) (k : String) : SeriesEntry :=
  ps.foldl (fun e p => appendEntry e ((dictLookup p k).getD emptyEntry)) emptyEntry

/-- One observation inside an `actual_generations_per_production_type`
item: ISO start and end dates and a value. -/
structure RawValue where
  start_date : Timeutils.IsoDateTime
  end_date : Timeutils.IsoDateTime
  value : Int

/-- One item of the generation payload: a production type and its list
of observations. -/
structure RawItem where
  production_type : String
  values : List RawValue

/-- The slice-level result dict built by `RTECollector.fetch_data`:
`success` flag, the decoded payload's
`actual_generations_per_production_type` list when the HTTP status was
200 (`fetch_data` attaches no `data` key otherwise), and the error
detail. -/
structure FetchResult where
  success : Bool
  data : Option (List RawItem)
  error : Option String

/-- Embedding of `RTECollector.parse_result`.  When `success` is falsy the
code logs the error but then still evaluates `result['data']`, which
raises `KeyError` because failed fetch results carry no `'data'` key; the
raise is modelled as `Except.error`.  On a payload, each item is written
into a dict under its production type with the three arrays built from
`date_to_int` and the raw values. -/
def parse_result (result : FetchResult) : Except String SeriesData :=
  match result.data with
  | none => Except.error "KeyError: data"
  | some items =>
    Except.ok (items.foldl
      (fun d item =>
        dictInsert d item.production_type
          { start := item.values.map (fun v => Timeutils.date_to_int v.start_date),
            end_ := item.values.map (fun v => Timeutils.date_to_int v.end_date),
            values := item.values.map (fun v => v.value) })
      [])

/-- The per-slice loop of `RTECollector.save_data`:
`parts.append(self.parse_result(result))` for each slice result in
order.  An exception raised by `parse_result` propagates and aborts the
whole loop, which `Except`'s bind models. -/
def collect_parts (results : List FetchResult) : Except String (List SeriesData) :=
  results.mapM parse_result

/-- The token state held by `RTECollector`: `access_token` and
`token_expires_at` (both `None` at construction). -/
structure RTEState where
  access_token : Option String
  token_expires_at : Option Int
deriving Repr, DecidableEq

/-- What one POST to the token endpoint yields: an HTTP response with a
status and the optional `access_token` / `expires_in` JSON fields, or a
network-level exception. -/
inductive TokenResponse where
  | http (status : Int) (access_token : Option String) (expires_in : Option Int)
  | exn (msg : String)
deriving Repr, DecidableEq

/-- Result of a token operation: the returned boolean, the collector
state afterwards, and how many credential-grant exchanges (POSTs to the
token endpoint) were performed. -/
structure TokenOutcome where
  ok : Bool
  state : RTEState
  exchanges : Nat
deriving Repr, DecidableEq

/-- Embedding of `RTECollector.is_token_valid`: false when
`access_token` is falsy (absent or the empty string) or no expiry is
held, otherwise `now < token_expires_at`. -/
def is_token_valid (st : RTEState) (now : Int) : Bool :=
  match st.access_token, st.token_expires_at with
  | some tok, some exp => if tok = "" then false else decide (now < exp)
  | _, _ => false

/-- Embedding of `RTECollector.get_oauth2_token`: performs one exchange.
On HTTP 200 it stores the token and sets
`token_expires_at = now + expires_in` with `expires_in` defaulting to
7200 when the server omits it; a 200 body without `access_token` raises
`KeyError`, which the surrounding `try` turns into `False`.  On any other
status or a network exception it returns `False` with the state
unchanged; nothing is raised to the caller. -/
def get_oauth2_token (st : RTEState) (now : Int) (resp : TokenResponse) : TokenOutcome :=
  match resp with
  | TokenResponse.exn _ => ⟨false, st, 1⟩
  | TokenResponse.http status tok expires_in =>
    if status = 200 then
      match tok with
      | none => ⟨false, st, 1⟩
      | some t => ⟨true, ⟨some t, some (now + expires_in.getD 7200)⟩, 1⟩
    else ⟨false, st, 1⟩

/-- Embedding of `RTECollector.ensure_valid_token`: returns `True` with
no exchange while the held token is valid, otherwise delegates to
`get_oauth2_token`. -/
def ensure_valid_token (st : RTEState) (now : Int) (resp : TokenResponse) : TokenOutcome :=
  if is_token_valid st now then ⟨true, st, 0⟩
  else get_oauth2_token st now resp

/-- File name used by the writer loop of `RTECollector.save_data`:
`f"{production_type}.csv"`. -/
def rteFileName (production_type : String) : String :=
  production_type ++ ".csv"

/-- Column labels of the generation DataFrame, the keys of each
`SeriesEntry` dict in insertion order. -/
def rteColumns : List String :=
  ["start", "end", "values"]

/-- The writer loop of `RTECollector.save_data`: one CSV per production
type, written with `dataframe.to_csv(path)` — pandas default, so the
index column is included. -/
def rte_write_all (fs : FileSystem) (data : SeriesData) : FileSystem :=
  data.foldl
    (fun fs2 kv => writeCsv fs2 (rteFileName kv.1) (csvHeader rteColumns true))
    fs

end RTECollector

namespace WeatherCollector

/-- The keys of the built-in `self.stations` dict. -/
def stationKeys : List String :=
  ["paris", "lyon", "marseille", "toulouse", "brest"]

/-- One HTTP response from the weather API as `requests.get` returns it:
status code, decoded JSON body (kept abstract as a string payload) and
response text. -/
structure WResponse where
  status_code : Int
  body : String
  text : String
deriving Repr, DecidableEq

/-- What one weather HTTP request yields: a response or a network-level
exception. -/
inductive WHttp where
  | resp (r : WResponse)
  | exn (msg : String)
deriving Repr, DecidableEq

/-- Result of `WeatherCollector.fetch_station_data`, instrumented with
the number of HTTP requests issued and the number of rate-limit cooldown
sleeps performed. -/
structure WOutcome where
  success : Bool
  data : Option String
  error : Option String
  requestsMade : Nat
  sleeps : Nat
deriving Repr, DecidableEq

/-- Embedding of `WeatherCollector.fetch_station_data`, applied to the
transcript of responses the server would give to successive requests.
The code issues exactly one `requests.get` and never sleeps: status 200
returns success with the body, any other status returns failure with the
response text, an exception returns failure with its message; an unknown
station returns failure without any request.  There is no handling of
HTTP 429 — no cooldown, no retry — so at most the first transcript entry
is consumed. -/
def fetch_station_data (stations : List String) (station_key : String)
    (responses : List WHttp) : WOutcome :=
  if station_key ∈ stations then
    match responses with
    | [] => ⟨false, none, some "connection error", 1, 0⟩
    | WHttp.exn msg :: _ => ⟨false, none, some msg, 1, 0⟩
    | WHttp.resp r :: _ =>
      if r.status_code = 200 then ⟨true, some r.body, none, 1, 0⟩
      else ⟨false, none, some r.text, 1, 0⟩
  else ⟨false, none, some ("Station " ++ station_key ++ " non reconnue"), 0, 0⟩

/-- Embedding of the while-loop of `WeatherCollector.slice_date_range`:
collect `current_timestamp` values from `start` to `end` in steps of
`step` seconds.  The loop terminates exactly when the step is positive,
so that hypothesis is carried as an argument. -/
def timestampListAux (end_int step : Int) (hs : 0 < step) (current : Int) : List Int :=
  if current ≤ end_int then current :: timestampListAux end_int step hs (current + step)
  else []
termination_by (end_int + step - current).toNat
decreasing_by
  simp_wf
  omega

/-- Fuel-indexed version of the `slice_date_range` while-loop: `none`
means the loop has not finished within the given number of iterations. -/
def timestampListFuel (end_int step : Int) : Nat → Int → Option (List Int)
  | 0, current => if current ≤ end_int then none else some []
  | n + 1, current =>
    if current ≤ end_int then
      (timestampListFuel end_int step n (current + step)).map (fun rest => current :: rest)
    else some []

/-- Python list indexing with an `Int` index: a negative index counts
from the end of the list. -/
def pyIndex (l : List String) (i : Int) : String :=
  if i < 0 then l.getD ((l.length : Int) + i).toNat "" else l.getD i.toNat ""

/-- Embedding of `WeatherCollector.slice_date_range`, parameterised over
the `timeutils` conversions `date_to_int` (`d2i`) and `int_to_date`
(`i2d`).  The date strings are converted to Unix seconds, the loop
collects `int_to_date(current)` for each step of `step_in_hours * 60 *
60` seconds, and the returned list is the comprehension
`[(lst[i-1], lst[i-1]) for i in range(len(lst)-1)]` — note the `i-1`
index, which for `i = 0` is Python's negative index `-1`, the last
element. -/
def slice_date_range (d2i : String → Int) (i2d : Int → String)
    (start_date end_date : String) (step_in_hours : Int) (hs : 0 < step_in_hours) :
    List (String × String) :=
  let start_int := d2i start_date
  let end_int := d2i end_date
  let step_in_seconds := step_in_hours * 60 * 60
  let timestamp_list :=
    (timestampListAux end_int step_in_seconds (by omega) start_int).map i2d
  (List.range (timestamp_list.length - 1)).map
    (fun i => (pyIndex timestamp_list ((i : Int) - 1), pyIndex timestamp_list ((i : Int) - 1)))

/-- File name used by `WeatherCollector.save_data`:
`f"{station_key}_{granularity}.csv"`. -/
def weatherFileName (station_key granularity : String) : String :=
  station_key ++ "_" ++ granularity ++ ".csv"

/-- The metadata columns `process_station_data` moves to the front. -/
def fixedColumns : List String :=
  ["datetime", "timestamp", "station", "station_name"]

/-- Column labels of the weather DataFrame built by
`WeatherCollector.process_station_data` from the keys of the granularity
table: `datetime` plus every key other than `time`, then the appended
`station`, `station_name`, `timestamp` columns, reordered so the four
metadata columns come first followed by the remaining (metric)
columns. -/
def process_station_columns (weatherKeys : List String) : List String :=
  let dfColumns :=
    "datetime" :: (weatherKeys.filter (fun k => decide (k ≠ "time"))
      ++ ["station", "station_name", "timestamp"])
  fixedColumns ++ dfColumns.filter (fun c => decide (c ∉ fixedColumns))

/-- One station's CSV write in `WeatherCollector.save_data`: the file
`<station>_<granularity>.csv` written with `to_csv(filepath,
index=False)`, so the header is exactly the DataFrame's columns. -/
def weather_write (fs : FileSystem) (station_key granularity : String)
    (weatherKeys : List String) : FileSystem :=
  writeCsv fs (weatherFileName station_key granularity)
    (csvHeader (process_station_columns weatherKeys) false)

end WeatherCollector

end SolarEnergy

/-!
Theorems.  Helper lemmas first, then one theorem per specification claim
(with its witness or counterexample where applicable).
-/

namespace SolarEnergy

theorem dictLookup_dictInsert_self {α : Type} (d : List (String × α)) (k : String) (v : α) :
    dictLookup (dictInsert d k v) k = some v := by
  induction d with
  | nil => simp [dictInsert, dictLookup]
  | cons kv rest ih =>
    by_cases h : kv.1 = k
    · simp [dictInsert, dictLookup, h]
    · simp [dictInsert, dictLookup, h, ih]

theorem dictLookup_dictInsert_ne {α : Type} (d : List (String × α)) (k k2 : String)
    (v : α) (h : k2 ≠ k) :
    dictLookup (dictInsert d k2 v) k = dictLookup d k := by
  induction d with
  | nil => simp [dictInsert, dictLookup, h]
  | cons kv rest ih =>
    by_cases h2 : kv.1 = k2
    · simp [dictInsert, dictLookup, h2, h]
    · simp only [dictInsert, if_neg h2]
      by_cases h3 : kv.1 = k
      · simp [dictLookup, h3]
      · simp [dictLookup, h3, ih]

theorem dictLookup_eq_none_of_not_mem {α : Type} (d : List (String × α)) (k : String)
    (h : k ∉ d.map Prod.fst) :
    dictLookup d k = none := by
  induction d with
  | nil => rfl
  | cons kv rest ih =>
    simp only [List.map_cons, List.mem_cons, not_or] at h
    have h1 : ¬ kv.1 = k := fun hc => h.1 hc.symm
    simp [dictLookup, h1, ih h.2]

namespace RTECollector

theorem slice_datesAux_pos (end_date delta : Int) (hd : 0 < delta) (current : Int)
    (hc : current ≤ end_date) :
    slice_datesAux end_date delta hd current =
      (current, current + delta) :: slice_datesAux end_date delta hd (current + delta) := by
  rw [slice_datesAux]
  simp [hc]

theorem slice_datesAux_neg (end_date delta : Int) (hd : 0 < delta) (current : Int)
    (hc : ¬ current ≤ end_date) :
    slice_datesAux end_date delta hd current = [] := by
  rw [slice_datesAux]
  simp [hc]

theorem slice_datesAux_width (end_date delta : Int) (hd : 0 < delta) (current : Int) :
    ∀ w ∈ slice_datesAux end_date delta hd current, w.2 = w.1 + delta := by
  induction current using slice_datesAux.induct end_date delta hd with
  | case1 c hc ih =>
    rw [slice_datesAux_pos end_date delta hd c hc]
    intro w hw
    rcases List.mem_cons.mp hw with h | h
    · subst h; rfl
    · exact ih w h
  | case2 c hc =>
    rw [slice_datesAux_neg end_date delta hd c hc]
    intro w hw
    simp at hw

theorem slice_datesAux_start_le (end_date delta : Int) (hd : 0 < delta) (current : Int) :
    ∀ w ∈ slice_datesAux end_date delta hd current, w.1 ≤ end_date := by
  induction current using slice_datesAux.induct end_date delta hd with
  | case1 c hc ih =>
    rw [slice_datesAux_pos end_date delta hd c hc]
    intro w hw
    rcases List.mem_cons.mp hw with h | h
    · subst h; exact hc
    · exact ih w h
  | case2 c hc =>
    rw [slice_datesAux_neg end_date delta hd c hc]
    intro w hw
    simp at hw

theorem slice_datesAux_contiguous (end_date delta : Int) (hd : 0 < delta) (current : Int) :
    (slice_datesAux end_date delta hd current).Chain' (fun w₁ w₂ => w₁.2 = w₂.1) := by
  induction current using slice_datesAux.induct end_date delta hd with
  | case1 c hc ih =>
    rw [slice_datesAux_pos end_date delta hd c hc]
    refine List.chain'_cons'.mpr ⟨?_, ih⟩
    intro w hw
    by_cases hc2 : c + delta ≤ end_date
    · rw [slice_datesAux_pos end_date delta hd _ hc2] at hw
      simp only [List.head?_cons, Option.mem_def, Option.some.injEq] at hw
      subst hw; rfl
    · rw [slice_datesAux_neg end_date delta hd _ hc2] at hw
      simp at hw
  | case2 c hc =>
    rw [slice_datesAux_neg end_date delta hd c hc]
    exact List.chain'_nil

theorem slice_datesAux_ascending (end_date delta : Int) (hd : 0 < delta) (current : Int) :
    (slice_datesAux end_date delta hd current).Chain' (fun w₁ w₂ => w₁.1 < w₂.1) := by
  induction current using slice_datesAux.induct end_date delta hd with
  | case1 c hc ih =>
    rw [slice_datesAux_pos end_date delta hd c hc]
    refine List.chain'_cons'.mpr ⟨?_, ih⟩
    intro w hw
    by_cases hc2 : c + delta ≤ end_date
    · rw [slice_datesAux_pos end_date delta hd _ hc2] at hw
      simp only [List.head?_cons, Option.mem_def, Option.some.injEq] at hw
      subst hw
      simp
      omega
    · rw [slice_datesAux_neg end_date delta hd _ hc2] at hw
      simp at hw
  | case2 c hc =>
    rw [slice_datesAux_neg end_date delta hd c hc]
    exact List.chain'_nil

theorem slice_datesAux_nonlast_le (end_date delta : Int) (hd : 0 < delta) (current : Int) :
    (slice_datesAux end_date delta hd current).Chain' (fun w₁ _ => w₁.2 ≤ end_date) := by
  induction current using slice_datesAux.induct end_date delta hd with
  | case1 c hc ih =>
    rw [slice_datesAux_pos end_date delta hd c hc]
    refine List.chain'_cons'.mpr ⟨?_, ih⟩
    intro w hw
    by_cases hc2 : c + delta ≤ end_date
    · exact hc2
    · rw [slice_datesAux_neg end_date delta hd _ hc2] at hw
      simp at hw
  | case2 c hc =>
    rw [slice_datesAux_neg end_date delta hd c hc]
    exact List.chain'_nil

theorem slice_datesAux_covers (end_date delta : Int) (hd : 0 < delta) (current : Int) :
    ∀ t : Int, current ≤ t → t ≤ end_date →
      ∃ w ∈ slice_datesAux end_date delta hd current, w.1 ≤ t ∧ t ≤ w.2 := by
  induction current using slice_datesAux.induct end_date delta hd with
  | case1 c hc ih =>
    intro t hct hte
    rw [slice_datesAux_pos end_date delta hd c hc]
    by_cases ht : t ≤ c + delta
    · exact ⟨(c, c + delta), List.mem_cons_self _ _, hct, ht⟩
    · obtain ⟨w, hw, h1, h2⟩ := ih t (by omega) hte
      exact ⟨w, List.mem_cons_of_mem _ hw, h1, h2⟩
  | case2 c hc =>
    intro t hct hte
    omega

theorem slice_datesFuel_none_of_nonpos (end_date delta : Int) (hdelta : delta ≤ 0) :
    ∀ (n : Nat) (current : Int), current ≤ end_date →
      slice_datesFuel end_date delta n current = none := by
  intro n
  induction n with
  | zero =>
    intro current hc
    simp [slice_datesFuel, hc]
  | succ n ih =>
    intro current hc
    have h2 : current + delta ≤ end_date := by omega
    simp [slice_datesFuel, hc, ih (current + delta) h2]

theorem slice_datesFuel_eq_of_enough (end_date delta : Int) (hd : 0 < delta) :
    ∀ (n : Nat) (current : Int), (end_date + delta - current).toNat ≤ n →
      slice_datesFuel end_date delta n current =
        some (slice_datesAux end_date delta hd current) := by
  intro n
  induction n with
  | zero =>
    intro current hn
    have hc : ¬ current ≤ end_date := by omega
    simp [slice_datesFuel, hc, slice_datesAux_neg end_date delta hd current hc]
  | succ n ih =>
    intro current hn
    by_cases hc : current ≤ end_date
    · have hrec : (end_date + delta - (current + delta)).toNat ≤ n := by omega
      simp [slice_datesFuel, hc, ih (current + delta) hrec,
        slice_datesAux_pos end_date delta hd current hc]
    · simp [slice_datesFuel, hc, slice_datesAux_neg end_date delta hd current hc]

theorem appendEntry_empty_left (e : SeriesEntry) : appendEntry emptyEntry e = e := by
  cases e
  simp [appendEntry, emptyEntry]

theorem appendEntry_empty_right (e : SeriesEntry) : appendEntry e emptyEntry = e := by
  cases e
  simp [appendEntry, emptyEntry]

theorem appendEntry_assoc (a b c : SeriesEntry) :
    appendEntry (appendEntry a b) c = appendEntry a (appendEntry b c) := by
  simp [appendEntry, List.append_assoc]

theorem concatEntries_foldl_append (ps : List SeriesData) (k : String) (a b : SeriesEntry) :
    ps.foldl (fun e p => appendEntry e ((dictLookup p k).getD emptyEntry)) (appendEntry a b)
      = appendEntry a
          (ps.foldl (fun e p => appendEntry e ((dictLookup p k).getD emptyEntry)) b) := by
  induction ps generalizing b with
  | nil => rfl
  | cons p rest ih =>
    simp only [List.foldl_cons]
    rw [appendEntry_assoc, ih]

theorem concatEntries_cons (p : SeriesData) (ps : List SeriesData) (k : String) :
    concatEntries (p :: ps) k
      = appendEntry ((dictLookup p k).getD emptyEntry) (concatEntries ps k) := by
  have h := concatEntries_foldl_append ps k ((dictLookup p k).getD emptyEntry) emptyEntry
  rw [appendEntry_empty_right] at h
  unfold concatEntries
  simp only [List.foldl_cons, appendEntry_empty_left]
  exact h

theorem concatEntries_of_all_absent (ps : List SeriesData) (k : String)
    (h : ∀ p ∈ ps, dictLookup p k = none) :
    concatEntries ps k = emptyEntry := by
  induction ps with
  | nil => rfl
  | cons p rest ih =>
    rw [concatEntries_cons, h p (List.mem_cons_self _ _), ih fun q hq => h q (List.mem_cons_of_mem _ hq)]
    simp [appendEntry_empty_left]

theorem dictLookup_mergeInto (data part : SeriesData)
    (hnd : (part.map Prod.fst).Nodup) (k : String) :
    dictLookup (mergeInto data part) k =
      (dictLookup part k).elim (dictLookup data k)
        (fun v => some (appendEntry ((dictLookup data k).getD emptyEntry) v)) := by
  induction part generalizing data with
  | nil => rfl
  | cons kv rest ih =>
    simp only [List.map_cons, List.nodup_cons] at hnd
    have hstep : mergeInto data (kv :: rest)
        = mergeInto
            (dictInsert data kv.1 (appendEntry ((dictLookup data kv.1).getD emptyEntry) kv.2))
            rest := rfl
    rw [hstep, ih _ hnd.2]
    by_cases hkk : kv.1 = k
    · subst hkk
      rw [dictLookup_eq_none_of_not_mem rest kv.1 hnd.1]
      simp [dictLookup, dictLookup_dictInsert_self]
    · have hlp : dictLookup (kv :: rest) k = dictLookup rest k := by
        simp [dictLookup, hkk]
      rw [hlp, dictLookup_dictInsert_ne data k kv.1 _ hkk]

theorem dictLookup_foldl_mergeInto (ps : List SeriesData) (acc : SeriesData)
    (hnd : ∀ p ∈ ps, (p.map Prod.fst).Nodup) (k : String) :
    dictLookup (ps.foldl mergeInto acc) k =
      if ∀ p ∈ ps, dictLookup p k = none then dictLookup acc k
      else some (appendEntry ((dictLookup acc k).getD emptyEntry) (concatEntries ps k)) := by
  induction ps generalizing acc with
  | nil => simp
  | cons p rest ih =>
    have hmem : ∀ q ∈ rest, (q.map Prod.fst).Nodup :=
      fun q hq => hnd q (List.mem_cons_of_mem _ hq)
    simp only [List.foldl_cons]
    rw [ih (mergeInto acc p) hmem]
    have hm := dictLookup_mergeInto acc p (hnd p (List.mem_cons_self _ _)) k
    by_cases hrest : ∀ q ∈ rest, dictLookup q k = none
    · cases hp : dictLookup p k with
      | none =>
        have hall : ∀ q ∈ p :: rest, dictLookup q k = none := by
          intro q hq
          rcases List.mem_cons.mp hq with h | h
          · subst h; exact hp
          · exact hrest q h
        rw [if_pos hrest, if_pos hall, hm, hp]
        rfl
      | some v =>
        have hnall : ¬ ∀ q ∈ p :: rest, dictLookup q k = none := by
          intro hc
          have := hc p (List.mem_cons_self _ _)
          rw [hp] at this
          exact Option.some_ne_none v this
        rw [if_pos hrest, if_neg hnall, hm, hp,
          concatEntries_cons, hp, concatEntries_of_all_absent rest k hrest]
        simp [appendEntry_empty_right]
    · have hnall : ¬ ∀ q ∈ p :: rest, dictLookup q k = none := by
        intro hc
        exact hrest fun q hq => hc q (List.mem_cons_of_mem _ hq)
      rw [if_neg hrest, if_neg hnall, hm, concatEntries_cons]
      cases hp : dictLookup p k with
      | none =>
        simp [appendEntry_empty_left]
      | some v =>
        simp only [Option.elim_some, Option.getD_some]
        rw [appendEntry_assoc]

theorem dictLookup_mergeParts (p0 : SeriesData) (rest : List SeriesData)
    (hnd : ∀ p ∈ p0 :: rest, (p.map Prod.fst).Nodup) (k : String) :
    dictLookup (rest.foldl mergeInto p0) k =
      if ∀ p ∈ p0 :: rest, dictLookup p k = none then none
      else some (concatEntries (p0 :: rest) k) := by
  have hrest : ∀ p ∈ rest, (p.map Prod.fst).Nodup :=
    fun p hp => hnd p (List.mem_cons_of_mem _ hp)
  rw [dictLookup_foldl_mergeInto rest p0 hrest k]
  by_cases hr : ∀ p ∈ rest, dictLookup p k = none
  · cases hp : dictLookup p0 k with
    | none =>
      have hall : ∀ p ∈ p0 :: rest, dictLookup p k = none := by
        intro p hmem
        rcases List.mem_cons.mp hmem with h | h
        · subst h; exact hp
        · exact hr p h
      rw [if_pos hr, if_pos hall]
    | some v =>
      have hnall : ¬ ∀ p ∈ p0 :: rest, dictLookup p k = none := by
        intro hc
        have := hc p0 (List.mem_cons_self _ _)
        rw [hp] at this
        exact Option.some_ne_none v this
      rw [if_pos hr, if_neg hnall,
        concatEntries_cons, hp, concatEntries_of_all_absent rest k hr,
        appendEntry_empty_right]
      simp
  · have hnall : ¬ ∀ p ∈ p0 :: rest, dictLookup p k = none := by
      intro hc
      exact hr fun p hp => hc p (List.mem_cons_of_mem _ hp)
    rw [if_neg hr, if_neg hnall, concatEntries_cons]

theorem is_token_valid_false_of (st : RTEState) (now : Int)
    (h : st.access_token = none ∨ ∃ exp, st.token_expires_at = some exp ∧ exp ≤ now) :
    is_token_valid st now = false := by
  obtain ⟨a, b⟩ := st
  rcases h with h | ⟨exp, he, hle⟩
  · simp only at h
    subst h
    cases b <;> rfl
  · simp only at he
    subst he
    cases a with
    | none => rfl
    | some tok =>
      by_cases htok : tok = ""
      · simp [is_token_valid, htok]
      · simp [is_token_valid, htok]
        omega

theorem dictLookup_rte_write_all (fs : FileSystem) (data : SeriesData) (name : String) :
    dictLookup (rte_write_all fs data).files name =
      if ∃ kv ∈ data, rteFileName kv.1 = name then some (csvHeader rteColumns true)
      else dictLookup fs.files name := by
  induction data generalizing fs with
  | nil => simp [rte_write_all]
  | cons kv rest ih =>
    have hstep : rte_write_all fs (kv :: rest)
        = rte_write_all (writeCsv fs (rteFileName kv.1) (csvHeader rteColumns true)) rest := rfl
    rw [hstep, ih]
    by_cases hex : ∃ kv2 ∈ rest, rteFileName kv2.1 = name
    · rw [if_pos hex]
      have : ∃ kv2 ∈ kv :: rest, rteFileName kv2.1 = name := by
        obtain ⟨kv2, hm, he⟩ := hex
        exact ⟨kv2, List.mem_cons_of_mem _ hm, he⟩
      rw [if_pos this]
    · rw [if_neg hex]
      by_cases hn : rteFileName kv.1 = name
      · have : ∃ kv2 ∈ kv :: rest, rteFileName kv2.1 = name :=
          ⟨kv, List.mem_cons_self _ _, hn⟩
        rw [if_pos this]
        subst hn
        exact dictLookup_dictInsert_self fs.files _ _
      · have : ¬ ∃ kv2 ∈ kv :: rest, rteFileName kv2.1 = name := by
          intro ⟨kv2, hm, he⟩
          rcases List.mem_cons.mp hm with h | h
          · subst h; exact hn he
          · exact hex ⟨kv2, h, he⟩
        rw [if_neg this]
        exact dictLookup_dictInsert_ne fs.files name _ _ hn

theorem rte_write_all_dir_of_dir (data : SeriesData) (fs : FileSystem)
    (h : fs.dirExists = true) :
    (rte_write_all fs data).dirExists = true := by
  induction data generalizing fs with
  | nil => exact h
  | cons kv rest ih => exact ih (writeCsv fs (rteFileName kv.1) (csvHeader rteColumns true)) rfl

end RTECollector

namespace WeatherCollector

theorem timestampListAux_pos (end_int step : Int) (hs : 0 < step) (current : Int)
    (hc : current ≤ end_int) :
    timestampListAux end_int step hs current
      = current :: timestampListAux end_int step hs (current + step) := by
  rw [timestampListAux]
  simp [hc]

theorem timestampListAux_neg (end_int step : Int) (hs : 0 < step) (current : Int)
    (hc : ¬ current ≤ end_int) :
    timestampListAux end_int step hs current = [] := by
  rw [timestampListAux]
  simp [hc]

theorem timestampListFuel_none_of_nonpos (end_int step : Int) (hstep : step ≤ 0) :
    ∀ (n : Nat) (current : Int), current ≤ end_int →
      timestampListFuel end_int step n current = none := by
  intro n
  induction n with
  | zero =>
    intro current hc
    simp [timestampListFuel, hc]
  | succ n ih =>
    intro current hc
    have h2 : current + step ≤ end_int := by omega
    simp [timestampListFuel, hc, ih (current + step) h2]

theorem slice_date_range_self (d2i : String → Int) (i2d : Int → String)
    (ds : String) (step_in_hours : Int) (hs : 0 < step_in_hours) :
    slice_date_range d2i i2d ds ds step_in_hours hs = [] := by
  have hstep : (0 : Int) < step_in_hours * 60 * 60 := by omega
  have hlist : timestampListAux (d2i ds) (step_in_hours * 60 * 60) hstep (d2i ds) = [d2i ds] := by
    rw [timestampListAux_pos _ _ _ _ (le_refl _),
      timestampListAux_neg _ _ _ _ (by omega)]
  simp [slice_date_range, hlist]

theorem process_station_columns_eq (metrics : List String)
    (h : ∀ m ∈ metrics, m ∉ fixedColumns ∧ m ≠ "time") :
    process_station_columns ("time" :: metrics) = fixedColumns ++ metrics := by
  unfold process_station_columns
  have h1 : ("time" :: metrics).filter (fun k => decide (k ≠ "time")) = metrics := by
    rw [List.filter_cons]
    have : (decide ("time" ≠ "time")) = false := by decide
    rw [this]
    simp only [Bool.false_eq_true, if_false]
    exact List.filter_eq_self.mpr fun m hm => decide_eq_true ((h m hm).2)
  rw [h1]
  have h2 : ("datetime" :: (metrics ++ ["station", "station_name", "timestamp"])).filter
      (fun c => decide (c ∉ fixedColumns))
      = metrics.filter (fun c => decide (c ∉ fixedColumns)) := by
    rw [List.filter_cons, List.filter_append]
    have hdt : (decide ("datetime" ∉ fixedColumns)) = false := by decide
    have htail : (["station", "station_name", "timestamp"].filter
        (fun c => decide (c ∉ fixedColumns))) = [] := by decide
    rw [hdt, htail]
    simp
  dsimp only
  rw [h2]
  rw [List.filter_eq_self.mpr fun m hm => decide_eq_true ((h m hm).1)]

end WeatherCollector

end SolarEnergy

/-!
Claim theorems.
-/

open SolarEnergy SolarEnergy.Timeutils SolarEnergy.RTECollector SolarEnergy.WeatherCollector

/-- C1: for every `start ≤ end` and `step > 0`, `RTECollector.slice_dates`
returns a non-empty list of windows in ascending order, contiguous (each
window's end equals the next window's start), whose union covers
`[start, end]`, with every window of width at most `step`, and where only
the last window may extend past `end` (every non-last window ends at or
before `end`); in particular slicing 2020-01-01 .. 2020-01-10 (Unix
seconds) with a 120-day step yields exactly one slice spanning the full
range. -/
theorem slice_dates_windows (s e d : Int) (hse : s ≤ e) (hd : 0 < d) :
    slice_dates s e d hd ≠ []
    ∧ (slice_dates s e d hd).Chain' (fun w₁ w₂ => w₁.1 < w₂.1)
    ∧ (slice_dates s e d hd).Chain' (fun w₁ w₂ => w₁.2 = w₂.1)
    ∧ (∀ w ∈ slice_dates s e d hd, w.2 - w.1 ≤ d)
    ∧ (slice_dates s e d hd).head? = some (s, s + d)
    ∧ (∀ t : Int, s ≤ t → t ≤ e → ∃ w ∈ slice_dates s e d hd, w.1 ≤ t ∧ t ≤ w.2)
    ∧ (slice_dates s e d hd).Chain' (fun w₁ _ => w₁.2 ≤ e)
    ∧ slice_dates 1577836800 1578614400 10368000 (by decide)
        = [(1577836800, 1588204800)] := by
  refine ⟨?_, slice_datesAux_ascending e d hd s, slice_datesAux_contiguous e d hd s, ?_,
    ?_, slice_datesAux_covers e d hd s, slice_datesAux_nonlast_le e d hd s, ?_⟩
  · rw [slice_dates, slice_datesAux_pos e d hd s hse]
    simp
  · intro w hw
    have := slice_datesAux_width e d hd s w hw
    omega
  · rw [slice_dates, slice_datesAux_pos e d hd s hse]
    rfl
  · rw [slice_dates, slice_datesAux_pos _ _ _ _ (by decide),
      slice_datesAux_neg _ _ _ _ (by decide)]
    norm_num

/-- Witness for C1 at start 0, end 9, step 4. -/
theorem slice_dates_windows_witness :
    (0 : Int) ≤ 9 ∧ (0 : Int) < 4 ∧ slice_dates 0 9 4 (by decide) ≠ [] :=
  ⟨by decide, by decide, (slice_dates_windows 0 9 4 (by decide) (by decide)).1⟩

/-- C2: the merge in `RTECollector.save_data` concatenates, for each
production-type key, the start/end/values arrays in slice order; a key
absent from an earlier slice but present in a later one is treated as a
key with empty arrays rather than crashing; and the concrete three-slice
SOLAR/WIND example merges exactly as stated. -/
theorem merge_concatenates (p0 : SeriesData) (rest : List SeriesData)
    (hnd : ∀ p ∈ p0 :: rest, (p.map Prod.fst).Nodup) :
    mergeParts (p0 :: rest) = some (rest.foldl mergeInto p0)
    ∧ (∀ k, dictLookup (rest.foldl mergeInto p0) k =
        if ∀ p ∈ p0 :: rest, dictLookup p k = none then none
        else some (concatEntries (p0 :: rest) k))
    ∧ mergeParts
        [[("SOLAR", ⟨[1, 2], [], [10, 20]⟩)],
         [("SOLAR", ⟨[3], [], [30]⟩)],
         [("WIND", ⟨[4], [], [5]⟩)]]
      = some [("SOLAR", ⟨[1, 2, 3], [], [10, 20, 30]⟩), ("WIND", ⟨[4], [], [5]⟩)] := by
  refine ⟨rfl, fun k => dictLookup_mergeParts p0 rest hnd k, ?_⟩
  rfl

/-- Witness for C2 on a single-slice list. -/
theorem merge_concatenates_witness :
    (∀ p ∈ ([[("SOLAR", (⟨[1, 2], [], [10, 20]⟩ : SeriesEntry))]] : List SeriesData),
      (p.map Prod.fst).Nodup)
    ∧ mergeParts [[("SOLAR", ⟨[1, 2], [], [10, 20]⟩)]]
        = some ([].foldl mergeInto [("SOLAR", ⟨[1, 2], [], [10, 20]⟩)]) := by
  have hnd : ∀ p ∈ ([[("SOLAR", (⟨[1, 2], [], [10, 20]⟩ : SeriesEntry))]] : List SeriesData),
      (p.map Prod.fst).Nodup := by
    intro p hp
    simp only [List.mem_singleton] at hp
    subst hp
    simp
  exact ⟨hnd, (merge_concatenates _ [] hnd).1⟩

/-- C3: `RTECollector.parse_result` on a failed fetch result does NOT
return an empty series — after logging it evaluates `result['data']`,
which raises `KeyError` because failed results carry no data key; the
slice loop of `save_data` therefore aborts, so subsequent slices are not
processed.  This contradicts the specified behaviour (log and return an
empty/degenerate series) and is evaluated here at the failing input. -/
theorem parse_result_failed_fetch_raises :
    parse_result ⟨false, none, some "connection timeout"⟩ = Except.error "KeyError: data"
    ∧ collect_parts
        [⟨true, some [], none⟩, ⟨false, none, some "connection timeout"⟩,
         ⟨true, some [], none⟩]
      = Except.error "KeyError: data" :=
  ⟨rfl, rfl⟩

/-- C4 counterexample: a weather fetch whose responses are HTTP 429 then
HTTP 200 does not return success with one cooldown sleep — the code
returns failure from the first response with zero sleeps. -/
theorem fetch_station_data_429_cex :
    ¬ ((fetch_station_data stationKeys "paris"
          [WHttp.resp ⟨429, "payload1", "Too Many Requests"⟩,
           WHttp.resp ⟨200, "payload2", "ok"⟩]).success = true
        ∧ (fetch_station_data stationKeys "paris"
          [WHttp.resp ⟨429, "payload1", "Too Many Requests"⟩,
           WHttp.resp ⟨200, "payload2", "ok"⟩]).sleeps = 1) := by
  decide

/-- C4 (amended): `WeatherCollector.fetch_station_data` has no HTTP 429
handling: on any non-200 response, 429 included, it returns
`success=false` with the response text as the error, issuing exactly one
request, sleeping zero times and never consulting later responses. -/
theorem fetch_station_data_non200 (stations : List String) (key : String)
    (r : WResponse) (rest : List WHttp)
    (hk : key ∈ stations) (hs : r.status_code ≠ 200) :
    fetch_station_data stations key (WHttp.resp r :: rest)
      = ⟨false, none, some r.text, 1, 0⟩ := by
  simp [fetch_station_data, hk, hs]

/-- Witness for the amended C4. -/
theorem fetch_station_data_non200_witness :
    "paris" ∈ stationKeys ∧ (429 : Int) ≠ 200
    ∧ fetch_station_data stationKeys "paris"
        [WHttp.resp ⟨429, "p", "Too Many Requests"⟩]
      = ⟨false, none, some "Too Many Requests", 1, 0⟩ :=
  ⟨by decide, by decide,
    fetch_station_data_non200 stationKeys "paris" ⟨429, "p", "Too Many Requests"⟩ []
      (by decide) (by decide)⟩

/-- C5: with step 0 and the zero-length range start = end = 0, neither
slicer raises `ConfigurationError` (no such error exists in the code):
both while-loops simply never finish — for every iteration bound the
fuel-indexed loop is still running.  This evaluates the code at the
failing input of the claim. -/
theorem slice_step_nonpositive_diverges :
    (∀ n : Nat, slice_datesFuel 0 0 n 0 = none)
    ∧ (∀ n : Nat, timestampListFuel 0 (0 * 60 * 60) n 0 = none) := by
  constructor
  · intro n
    exact slice_datesFuel_none_of_nonpos 0 0 (le_refl 0) n 0 (le_refl 0)
  · intro n
    exact timestampListFuel_none_of_nonpos 0 (0 * 60 * 60) (by norm_num) n 0 (le_refl 0)

/-- C6 counterexample: with a zero-length range (identical date strings)
and the default 24-hour step, `WeatherCollector.slice_date_range` returns
the empty list, not exactly one slice. -/
theorem slice_date_range_zero_length_cex :
    (slice_date_range (fun _ => 1577836800) (fun _ => "2020-01-01")
        "2020-01-01" "2020-01-01" 24 (by decide)).length ≠ 1 := by
  rw [slice_date_range_self]
  decide

/-- C6 (amended): on a zero-length range with positive step,
`RTECollector.slice_dates` returns exactly one slice
`(start, start + step)`, while `WeatherCollector.slice_date_range`
returns the empty list (its final comprehension drops one element from
its singleton timestamp list). -/
theorem slice_zero_length (s d : Int) (hd : 0 < d)
    (d2i : String → Int) (i2d : Int → String) (ds : String)
    (h : Int) (hs : 0 < h) :
    slice_dates s s d hd = [(s, s + d)]
    ∧ slice_date_range d2i i2d ds ds h hs = [] := by
  constructor
  · rw [slice_dates, slice_datesAux_pos _ _ _ _ (le_refl s),
      slice_datesAux_neg _ _ _ _ (by omega)]
  · exact slice_date_range_self d2i i2d ds h hs

/-- Witness for the amended C6. -/
theorem slice_zero_length_witness :
    (0 : Int) < 4 ∧ (0 : Int) < 24 ∧ slice_dates 5 5 4 (by decide) = [(5, 9)] :=
  ⟨by decide, by decide, by
    simpa using
      (slice_zero_length 5 4 (by decide) (fun _ => 0) (fun _ => "x") "x" 24 (by decide)).1⟩

/-- C7: the per-key concatenation merge of `save_data` is associative as
a fold over the ordered per-slice results: merging [A, B, C] equals
merging [A, B] and then merging that result with C. -/
theorem merge_fold_associative (A B C : SeriesData) :
    mergeParts [A, B, C] = (mergeParts [A, B]).bind (fun m => mergeParts [m, C]) :=
  rfl

/-- C8: `ensure_valid_token` returns True with no token exchange while a
(non-empty) token is held and `now < expires_at`; otherwise (no token, or
expired) it performs exactly one credentials-grant exchange; any non-200
token response or network exception yields False without raising and
leaves the state unchanged; HTTP 200 stores the token and sets
`expires_at = now + expires_in`, with `expires_in` defaulting to 7200
seconds when the server omits it. -/
theorem ensure_valid_token_spec :
    (∀ (st : RTEState) (now : Int) (resp : TokenResponse) (tok : String) (exp : Int),
       st.access_token = some tok → tok ≠ "" → st.token_expires_at = some exp → now < exp →
       ensure_valid_token st now resp = ⟨true, st, 0⟩)
    ∧ (∀ (st : RTEState) (now : Int) (resp : TokenResponse),
       st.access_token = none ∨ (∃ exp, st.token_expires_at = some exp ∧ exp ≤ now) →
       (ensure_valid_token st now resp).exchanges = 1)
    ∧ (∀ (st : RTEState) (now status : Int) (tok : Option String) (ein : Option Int),
       st.access_token = none ∨ (∃ exp, st.token_expires_at = some exp ∧ exp ≤ now) →
       status ≠ 200 →
       ensure_valid_token st now (TokenResponse.http status tok ein) = ⟨false, st, 1⟩)
    ∧ (∀ (st : RTEState) (now : Int) (msg : String),
       st.access_token = none ∨ (∃ exp, st.token_expires_at = some exp ∧ exp ≤ now) →
       ensure_valid_token st now (TokenResponse.exn msg) = ⟨false, st, 1⟩)
    ∧ (∀ (st : RTEState) (now : Int) (tok : String) (ein : Option Int),
       st.access_token = none ∨ (∃ exp, st.token_expires_at = some exp ∧ exp ≤ now) →
       ensure_valid_token st now (TokenResponse.http 200 (some tok) ein)
         = ⟨true, ⟨some tok, some (now + ein.getD 7200)⟩, 1⟩)
    ∧ (∀ (st : RTEState) (now : Int) (tok : String),
       st.access_token = none ∨ (∃ exp, st.token_expires_at = some exp ∧ exp ≤ now) →
       ensure_valid_token st now (TokenResponse.http 200 (some tok) none)
         = ⟨true, ⟨some tok, some (now + 7200)⟩, 1⟩) := by
  have hvalid : ∀ (st : RTEState) (now : Int) (tok : String) (exp : Int),
      st.access_token = some tok → tok ≠ "" → st.token_expires_at = some exp → now < exp →
      is_token_valid st now = true := by
    intro st now tok exp ha htok he hlt
    obtain ⟨a, b⟩ := st
    simp only at ha he
    subst ha
    subst he
    simp [is_token_valid, htok, hlt]
  refine ⟨?_, ?_, ?_, ?_, ?_, ?_⟩
  · intro st now resp tok exp ha htok he hlt
    simp [ensure_valid_token, hvalid st now tok exp ha htok he hlt]
  · intro st now resp h
    have hv := is_token_valid_false_of st now h
    cases resp with
    | exn msg => simp [ensure_valid_token, hv, get_oauth2_token]
    | http status tok ein =>
      by_cases hs : status = 200
      · subst hs
        cases tok <;> simp [ensure_valid_token, hv, get_oauth2_token]
      · simp [ensure_valid_token, hv, get_oauth2_token, hs]
  · intro st now status tok ein h hs
    have hv := is_token_valid_false_of st now h
    simp [ensure_valid_token, hv, get_oauth2_token, hs]
  · intro st now msg h
    have hv := is_token_valid_false_of st now h
    simp [ensure_valid_token, hv, get_oauth2_token]
  · intro st now tok ein h
    have hv := is_token_valid_false_of st now h
    simp [ensure_valid_token, hv, get_oauth2_token]
  · intro st now tok h
    have hv := is_token_valid_false_of st now h
    simp [ensure_valid_token, hv, get_oauth2_token]

/-- Witness for C8: a valid held token short-circuits, and an expired
state with a 200 response stores the new token and expiry. -/
theorem ensure_valid_token_spec_witness :
    ensure_valid_token ⟨some "tok", some 100⟩ 50 (TokenResponse.exn "boom")
      = ⟨true, ⟨some "tok", some 100⟩, 0⟩
    ∧ ensure_valid_token ⟨none, none⟩ 0 (TokenResponse.http 200 (some "t") (some 3600))
      = ⟨true, ⟨some "t", some 3600⟩, 1⟩ :=
  ⟨ensure_valid_token_spec.1 ⟨some "tok", some 100⟩ 50 (TokenResponse.exn "boom")
      "tok" 100 rfl (by decide) rfl (by decide),
    by simpa using
      ensure_valid_token_spec.2.2.2.2.1 ⟨none, none⟩ 0 "t" (some 3600) (Or.inl rfl)⟩

/-- C9 counterexample: the generation writer uses `to_csv` with the
pandas default index, so the written header is `,start,end,values` — an
extra unnamed leading index column — not exactly `start,end,values`. -/
theorem rte_csv_header_cex :
    dictLookup (rte_write_all ⟨false, []⟩ [("SOLAR", ⟨[1], [2], [3]⟩)]).files "SOLAR.csv"
      = some ["", "start", "end", "values"]
    ∧ (["", "start", "end", "values"] : List String) ≠ ["start", "end", "values"] := by
  constructor
  · rfl
  · decide

/-- C9 (amended): writers produce one CSV per series key under the save
directory, creating the directory if absent and overwriting any existing
file of the same name; generation files are named
`<production_type>.csv` with the columns start,end,values preceded by an
unnamed index column (pandas `to_csv` default); weather files are named
`<station>_<granularity>.csv` with header exactly
datetime,timestamp,station,station_name followed by the metric columns
(`index=False`). -/
theorem writer_output_spec :
    (∀ (fs : FileSystem) (data : SeriesData) (kv : String × SeriesEntry), kv ∈ data →
       dictLookup (rte_write_all fs data).files (rteFileName kv.1)
         = some (csvHeader rteColumns true))
    ∧ (∀ (fs : FileSystem) (data : SeriesData), data ≠ [] →
       (rte_write_all fs data).dirExists = true)
    ∧ (∀ (fs : FileSystem) (sk g : String) (metrics : List String),
       (∀ m ∈ metrics, m ∉ fixedColumns ∧ m ≠ "time") →
       (weather_write fs sk g ("time" :: metrics)).dirExists = true
       ∧ dictLookup (weather_write fs sk g ("time" :: metrics)).files (weatherFileName sk g)
           = some (["datetime", "timestamp", "station", "station_name"] ++ metrics))
    ∧ (∀ (fs : FileSystem) (name : String) (h1 h2 : List String),
       dictLookup (writeCsv (writeCsv fs name h1) name h2).files name = some h2) := by
  refine ⟨?_, ?_, ?_, ?_⟩
  · intro fs data kv hkv
    rw [dictLookup_rte_write_all]
    rw [if_pos ⟨kv, hkv, rfl⟩]
  · intro fs data hne
    cases data with
    | nil => exact absurd rfl hne
    | cons kv rest =>
      exact rte_write_all_dir_of_dir rest
        (writeCsv fs (rteFileName kv.1) (csvHeader rteColumns true)) rfl
  · intro fs sk g metrics hm
    refine ⟨rfl, ?_⟩
    show dictLookup (dictInsert fs.files (weatherFileName sk g)
      (csvHeader (process_station_columns ("time" :: metrics)) false)) (weatherFileName sk g) = _
    rw [dictLookup_dictInsert_self, process_station_columns_eq metrics hm]
    simp [csvHeader, fixedColumns]
  · intro fs name h1 h2
    exact dictLookup_dictInsert_self _ _ _

/-- Witness for the amended C9. -/
theorem writer_output_spec_witness :
    (("SOLAR", (⟨[1], [2], [3]⟩ : SeriesEntry))
        ∈ [("SOLAR", (⟨[1], [2], [3]⟩ : SeriesEntry))])
    ∧ dictLookup (rte_write_all ⟨true, []⟩
          [("SOLAR", ⟨[1], [2], [3]⟩)]).files (rteFileName "SOLAR")
        = some (csvHeader rteColumns true) :=
  ⟨List.mem_singleton.mpr rfl,
    writer_output_spec.1 ⟨true, []⟩ [("SOLAR", ⟨[1], [2], [3]⟩)]
      ("SOLAR", ⟨[1], [2], [3]⟩) (List.mem_singleton.mpr rfl)⟩

/-- C10: `date_to_int` ignores the UTC offset carried by the input and
reinterprets the wall-clock fields as Europe/Paris local time, so the
strings 2020-01-01T00:00:00+00:00 and 2020-01-01T01:00:00+01:00 — the
same instant under different offsets — map to the different Unix
timestamps 1577833200 and 1577836800 (each matching Python's output). -/
theorem date_to_int_reinterprets_paris :
    (∀ (dt : IsoDateTime) (o : Int),
       date_to_int { dt with utcOffsetMinutes := some o }
         = date_to_int { dt with utcOffsetMinutes := none })
    ∧ instantOf ⟨2020, 1, 1, 0, 0, 0, some 0⟩ = instantOf ⟨2020, 1, 1, 1, 0, 0, some 60⟩
    ∧ (⟨2020, 1, 1, 0, 0, 0, some 0⟩ : IsoDateTime).utcOffsetMinutes
        ≠ (⟨2020, 1, 1, 1, 0, 0, some 60⟩ : IsoDateTime).utcOffsetMinutes
    ∧ date_to_int ⟨2020, 1, 1, 0, 0, 0, some 0⟩ = 1577833200
    ∧ date_to_int ⟨2020, 1, 1, 1, 0, 0, some 60⟩ = 1577836800
    ∧ date_to_int ⟨2020, 1, 1, 0, 0, 0, some 0⟩
        ≠ date_to_int ⟨2020, 1, 1, 1, 0, 0, some 60⟩ :=
  ⟨fun dt o => rfl, by decide, by decide, by decide, by decide, by decide⟩
